import Mathlib

/-!
Verification of the request-processing core of the cpp-socket-server-client
repository.  C++ strings are embedded as `List Char`; fallible C++ calls
(`std::string::substr` past the end throws `std::out_of_range`) are embedded
in `Except Unit`; the stateful interceptor objects are embedded as records
whose mutable fields are threaded explicitly.  Every definition is translated
from the source files (`src/server.cpp`, `src/services.cpp`,
`src/interceptors.cpp`, `include/hft_server.hpp`, and the HFT server
translation unit), not from the specification, except where a definition is
explicitly marked as modelling the specification text for comparison.
-/

namespace SockSrv

/-- Whitespace class of the `std::regex` escape `\s` (ASCII range), used by
`AuthenticationInterceptor::preProcess` via the pattern `TOKEN:([^\s]+)`. -/
def isSpaceChar (c : Char) : Bool :=
  c = ' ' || c = '\t' || c = '\n' || c = Char.ofNat 11 || c = Char.ofNat 12 || c = '\r'

/-- `std::string::find(pat)`: index of the leftmost occurrence of `pat`,
`none` for `npos`. -/
def strFind (pat : List Char) : List Char → Option Nat
  | [] => if pat.isPrefixOf ([] : List Char) then some 0 else none
  | c :: t => if pat.isPrefixOf (c :: t) then some 0 else (strFind pat t).map (· + 1)

/-- `std::string::substr(pos)`: suffix from `pos`; throws `std::out_of_range`
when `pos` exceeds the length (modelled as `Except.error`). -/
def substrFrom (s : List Char) (pos : Nat) : Except Unit (List Char) :=
  if pos ≤ s.length then .ok (s.drop pos) else .error ()

/-- A handler: `IService::processRequest` may throw (uncaught exceptions are
modelled as `Except.error`); an empty result means "not handled". -/
abbrev Handler := List Char → Except Unit (List Char)

/-- `EchoService::processRequest` (src/services.cpp): on a request containing
`ECHO`, returns `"ECHO: " + request.substr(echoPos + 5)`; otherwise the empty
string.  The `substr` call is past the end when the request ends right at the
keyword, in which case `std::out_of_range` escapes (no try/catch here). -/
def EchoService.processRequest (request : List Char) : Except Unit (List Char) :=
  match strFind ("ECHO".toList) request with
  | some echoPos => (substrFrom request (echoPos + 5)).map (fun r => "ECHO: ".toList ++ r)
  | none => .ok []

/-- The fixed rejection response of `processRequest` in both servers. -/
def rejectMsg : List Char := "ERROR: Request rejected by interceptor".toList

/-- The fixed response when no service produced a non-empty result. -/
def noServiceMsg : List Char := "ERROR: No service available to handle request".toList

/-- First position at which the regex `TOKEN:([^\s]+)` can match: `TOKEN:`
must be a literal prefix here and at least one non-space character must
follow; the capture is the maximal non-space run. -/
def tokenHere (s : List Char) : Option (List Char) :=
  if ("TOKEN:".toList).isPrefixOf s then
    let t := (s.drop 6).takeWhile (fun c => !isSpaceChar c)
    if t = [] then none else some t
  else none

/-- Leftmost match of `TOKEN:([^\s]+)` (`std::regex_search` scans positions
left to right); returns the captured token of the first matching position. -/
def tokenCapture : List Char → Option (List Char)
  | [] => none
  | c :: t =>
    match tokenHere (c :: t) with
    | some tk => some tk
    | none => tokenCapture t

/-- The capture of `TOKEN:([^\s]+)` anchored at offset `i` of the request. -/
def tokenAt (req : List Char) (i : Nat) : Option (List Char) :=
  tokenHere (req.drop i)

/-- `AuthenticationInterceptor::preProcess` (src/interceptors.cpp): true iff
the first regex match of `TOKEN:([^\s]+)` captures exactly the configured
token; false when the pattern does not match at all. -/
def AuthenticationInterceptor.preProcess (validToken request : List Char) : Bool :=
  match tokenCapture request with
  | some token => token == validToken
  | none => false

/-- Mutable fields of `RateLimitingInterceptor`; times are seconds of the
steady clock. -/
structure RateState where
  max : Nat
  current : Nat
  lastReset : Nat
  deriving DecidableEq, Repr

/-- `RateLimitingInterceptor::preProcess` (src/interceptors.cpp).  The clock
read `std::chrono::steady_clock::now()` is passed in as `now` (seconds);
the request argument is unused by the code but kept for the interface. -/
def RateLimitingInterceptor.preProcess (st : RateState) (now : Nat)
    (request : List Char) : Bool × List Char × RateState :=
  let st1 := if 60 ≤ now - st.lastReset then { st with current := 0, lastReset := now } else st
  if st1.max ≤ st1.current then (false, request, st1)
  else (true, request, { st1 with current := st1.current + 1 })

/-- `LoggingInterceptor::preProcess`: records the clock into `startTime`
(the `Nat` state) and always returns true; output is side-effect only. -/
def LoggingInterceptor.preProcess (_startTime now : Nat) (request : List Char) :
    Bool × List Char × Nat :=
  (true, request, now)

/-- `ValidationInterceptor::preProcess` (src/interceptors.cpp): rejects the
empty request, requests longer than 1000 characters, and requests containing
none of the four command keywords (checked with `find` in this order). -/
def ValidationInterceptor.preProcess (request : List Char) : Bool :=
  if request = [] then false
  else if 1000 < request.length then false
  else ((strFind ("ECHO".toList) request).isSome
      || (strFind ("CAL".toList) request).isSome
      || (strFind ("READ".toList) request).isSome
      || (strFind ("WRITE".toList) request).isSome)

/-- An `IInterceptor` object: its mutable fields are `st`, and `pre`/`post`
return the (possibly rewritten) request/response together with the new state.
`pre` models `bool preProcess(std::string&)`, `post` models
`void postProcess(const std::string&, std::string&)`. -/
structure Interceptor (σ : Type) where
  st : σ
  pre : σ → List Char → Bool × List Char × σ
  post : σ → List Char → List Char → List Char × σ
  priority : Int

/-- The `AuthenticationInterceptor` object (priority 0, stateless; its
`postProcess` only logs). -/
def authInterceptor (validToken : List Char) : Interceptor Unit where
  st := ()
  pre := fun _ req => (AuthenticationInterceptor.preProcess validToken req, req, ())
  post := fun _ _ resp => (resp, ())
  priority := 0

/-- The `ValidationInterceptor` object (priority 3); its `postProcess`
replaces an empty response by `ERROR: Empty response`. -/
def validationInterceptor : Interceptor Unit where
  st := ()
  pre := fun _ req => (ValidationInterceptor.preProcess req, req, ())
  post := fun _ _ resp => (if resp = [] then "ERROR: Empty response".toList else resp, ())
  priority := 3

/-- The pre-processing loop of `processRequest`: run `preProcess` of each
interceptor in list order on the threaded request until one returns false;
returns (all-accepted?, final request, interceptor list with updated states).
On rejection the loop is left immediately, so the states of the remaining
interceptors are untouched. -/
def prePass {σ : Type} : List (Interceptor σ) → List Char →
    Bool × List Char × List (Interceptor σ)
  | [], req => (true, req, [])
  | i :: rest, req =>
    match i.pre i.st req with
    | (true, req1, st1) =>
      let r := prePass rest req1
      (r.1, r.2.1, { i with st := st1 } :: r.2.2)
    | (false, req1, st1) => (false, req1, { i with st := st1 } :: rest)

/-- The post-processing loop of `processRequest`: every interceptor's
`postProcess` runs in list order, threading the response. -/
def postPass {σ : Type} : List (Interceptor σ) → List Char → List Char →
    List Char × List (Interceptor σ)
  | [], _, resp => (resp, [])
  | i :: rest, req, resp =>
    let p := i.post i.st req resp
    let r := postPass rest req p.1
    (r.1, { i with st := p.2 } :: r.2)

/-- The service dispatch loop of `processRequest`: call each service in
registration order, stop at the first non-empty response.  The second
component counts how many services were actually consulted (instrumentation
of the observable "no later handler is consulted"). -/
def dispatchCount : List Handler → List Char → Except Unit (List Char × Nat)
  | [], _ => .ok ([], 0)
  | s :: rest, req =>
    match s req with
    | .error e => .error e
    | .ok r =>
      if r = [] then
        match dispatchCount rest req with
        | .error e => .error e
        | .ok (resp, n) => .ok (resp, n + 1)
      else .ok (r, 1)

/-- The shared body of `SocketServer::processRequest` and
`HFTServer::processRequest`: interceptor pre-pass (early return with the
fixed rejection response on the first false), service dispatch with the
no-service fallback, interceptor post-pass.  The result carries the response
and the interceptor objects with their updated states. -/
def runPipeline {σ : Type} (ints : List (Interceptor σ)) (svcs : List Handler)
    (req : List Char) : Except Unit (List Char × List (Interceptor σ)) :=
  let p := prePass ints req
  if p.1 then
    match dispatchCount svcs p.2.1 with
    | .error e => .error e
    | .ok (resp, _) =>
      let resp2 := if resp = [] then noServiceMsg else resp
      let q := postPass p.2.2 p.2.1 resp2
      .ok (q.1, q.2)
  else
    .ok (rejectMsg, p.2.2)

/-- `HFTServer::processRequest` iterates the interceptor vector in its stored
order (it was sorted at registration time). -/
def HFTServer.processRequest {σ : Type} (ints : List (Interceptor σ))
    (svcs : List Handler) (req : List Char) :
    Except Unit (List Char × List (Interceptor σ)) :=
  runPipeline ints svcs req

/-- `std::sort` on the interceptor vector with the comparator
`a->getPriority() < b->getPriority()`.  Modelled as an insertion sort; the
standard only guarantees a permutation sorted by the comparator, and for the
short registration lists of this program libstdc++'s `std::sort` runs its
insertion-sort path, whose tie behaviour this model reproduces. -/
def orderedInsertI {σ : Type} (i : Interceptor σ) :
    List (Interceptor σ) → List (Interceptor σ)
  | [] => [i]
  | j :: rest =>
    if i.priority ≤ j.priority then i :: j :: rest else j :: orderedInsertI i rest

/-- See `orderedInsertI`: the full sort of the interceptor vector. -/
def sortByPriority {σ : Type} : List (Interceptor σ) → List (Interceptor σ)
  | [] => []
  | i :: rest => orderedInsertI i (sortByPriority rest)

/-- `SocketServer::processRequest` sorts the interceptor vector by priority
at entry (the vector is stored back sorted), then runs the common body. -/
def SocketServer.processRequest {σ : Type} (ints : List (Interceptor σ))
    (svcs : List Handler) (req : List Char) :
    Except Unit (List Char × List (Interceptor σ)) :=
  runPipeline (sortByPriority ints) svcs req

/-- `SocketServer::addInterceptor` (src/server.cpp): appends only. -/
def SocketServer.addInterceptor {σ : Type} (ints : List (Interceptor σ))
    (i : Interceptor σ) : List (Interceptor σ) :=
  ints ++ [i]

/-- `HFTServer::addInterceptor`: appends, then sorts the vector by priority. -/
def HFTServer.addInterceptor {σ : Type} (ints : List (Interceptor σ))
    (i : Interceptor σ) : List (Interceptor σ) :=
  sortByPriority (ints ++ [i])

/-- The stored interceptor sequence is in ascending priority order. -/
abbrev SortedByPriority {σ : Type} (l : List (Interceptor σ)) : Prop :=
  List.Pairwise (fun a b => a.priority ≤ b.priority) l

/-- Modelled from the spec: the pipeline the claim describes, in which the
first rejection "skips directly to step 3 with only the middleware already
run participating in post-pass (symmetric unwind)".  Identical to
`runPipeline` except that on rejection the post-pass of the already-run
interceptors (the rejecting one included) is executed on the fixed rejection
response before returning. -/
def prePassSplit {σ : Type} : List (Interceptor σ) → List Char →
    Bool × List Char × List (Interceptor σ) × List (Interceptor σ)
  | [], req => (true, req, [], [])
  | i :: rest, req =>
    match i.pre i.st req with
    | (true, req1, st1) =>
      let r := prePassSplit rest req1
      (r.1, r.2.1, { i with st := st1 } :: r.2.2.1, r.2.2.2)
    | (false, req1, st1) => (false, req1, [{ i with st := st1 }], rest)

/-- Modelled from the spec: see `prePassSplit`. -/
def runPipelineSpecUnwind {σ : Type} (ints : List (Interceptor σ))
    (svcs : List Handler) (req : List Char) :
    Except Unit (List Char × List (Interceptor σ)) :=
  let p := prePassSplit ints req
  if p.1 then
    match dispatchCount svcs p.2.1 with
    | .error e => .error e
    | .ok (resp, _) =>
      let resp2 := if resp = [] then noServiceMsg else resp
      let q := postPass p.2.2.1 p.2.1 resp2
      .ok (q.1, q.2)
  else
    let q := postPass p.2.2.1 p.2.1 rejectMsg
    .ok (q.1, q.2 ++ p.2.2.2)

/-- A node of `LockFreeQueue`: pool-slot pointers are pool indices. -/
structure LFNode (α : Type) where
  data : α
  next : Option Nat
  deriving DecidableEq, Repr

instance {α : Type} [Inhabited α] : Inhabited (LFNode α) := ⟨⟨default, none⟩⟩

/-- `LockFreeQueue` (include/hft_server.hpp): a pre-allocated pool of nodes,
`head`/`tail` pointers as pool indices, and the monotone `pool_index`
counter used by `get_node`. -/
structure LockFreeQueue (α : Type) where
  pool : List (LFNode α)
  head : Nat
  tail : Nat
  poolIndex : Nat
  deriving DecidableEq, Repr

/-- The `LockFreeQueue(pool_size)` constructor: every node default-constructed
(`next = nullptr`), `head = tail = pool[0]`, `pool_index = 0`. -/
def LockFreeQueue.init (α : Type) (poolSize : Nat) (d : α) : LockFreeQueue α :=
  ⟨List.replicate poolSize ⟨d, none⟩, 0, 0, 0⟩

/-- `LockFreeQueue::enqueue`: `get_node` hands out `pool[pool_index++ %
pool.size()]`, which is a non-null pointer whenever the pool is non-empty, so
the code's `if (!node) return false` branch is dead and the slot contents are
overwritten in place; then `node->data = item; node->next = nullptr;
old_tail = tail.exchange(node); old_tail->next = node;` (sequential
semantics of the thread interleaving in which the operation runs alone). -/
def LockFreeQueue.enqueue {α : Type} [Inhabited α] (q : LockFreeQueue α) (x : α) :
    Bool × LockFreeQueue α :=
  let idx := q.poolIndex % q.pool.length
  let pool1 := q.pool.set idx ⟨x, none⟩
  let oldTail := q.tail
  let pool2 := pool1.set oldTail { pool1.getD oldTail default with next := some idx }
  (true, ⟨pool2, q.head, idx, q.poolIndex + 1⟩)

/-- `LockFreeQueue::dequeue` (sequential semantics): read `head`, follow its
`next`; empty when `next` is null, otherwise take that node's data and
advance `head`. -/
def LockFreeQueue.dequeue {α : Type} [Inhabited α] (q : LockFreeQueue α) :
    Option α × LockFreeQueue α :=
  let oldHead := q.pool.getD q.head default
  match oldHead.next with
  | none => (none, q)
  | some nh => (some (q.pool.getD nh default).data, { q with head := nh })

/-- Observable part of a pipeline outcome: the response and the interceptor
states (the function fields are dropped so equality is decidable). -/
def obsv {σ : Type} (e : Except Unit (List Char × List (Interceptor σ))) :
    Option (List Char × List σ) :=
  match e with
  | .ok (resp, ints) => some (resp, ints.map (fun i => i.st))
  | .error _ => none

/-- A do-nothing interceptor with the given priority, used to observe the
registration order invariant. -/
def plainInterceptor (p : Int) : Interceptor Unit where
  st := ()
  pre := fun st req => (true, req, st)
  post := fun st _ resp => (resp, st)
  priority := p

/-- An interceptor over a `Bool` state whose `pre` returns the given verdict
without touching anything, and whose `post` sets the state flag to true:
the flag records whether the post-pass visited it. -/
def flagInterceptor (verdict : Bool) (p : Int) : Interceptor Bool where
  st := false
  pre := fun st req => (verdict, req, st)
  post := fun _ _ resp => (resp, true)
  priority := p

/-- Two pipeline runs on the same request, threading the interceptor states
of the first run into the second (the worker loop serving the same request
twice). -/
def processTwo {σ : Type} (ints : List (Interceptor σ)) (svcs : List Handler)
    (req : List Char) : Except Unit (List Char × List Char × List (Interceptor σ)) :=
  match runPipeline ints svcs req with
  | .error e => .error e
  | .ok (r1, ints1) =>
    match runPipeline ints1 svcs req with
    | .error e => .error e
    | .ok (r2, ints2) => .ok (r1, r2, ints2)

/-- The queue after constructing with pool size 2 and enqueuing one item. -/
def queueAfterOne : LockFreeQueue Nat := ((LockFreeQueue.init Nat 2 0).enqueue 7).2

/-- The queue after constructing with pool size 2 and enqueuing two items,
filling the capacity fixed at construction. -/
def queueAfterTwo : LockFreeQueue Nat :=
  (((LockFreeQueue.init Nat 2 0).enqueue 1).2.enqueue 2).2

/-- A sequence of `RateLimitingInterceptor::preProcess` calls at the given
clock readings, threading the interceptor state. -/
def runRate : RateState → List Nat → List Bool × RateState
  | st, [] => ([], st)
  | st, t :: ts =>
    let p := RateLimitingInterceptor.preProcess st t []
    let r := runRate p.2.2 ts
    (p.1 :: r.1, r.2)

/-! Helper lemmas. -/

theorem runPipeline_of_reject {σ : Type} (ints : List (Interceptor σ))
    (svcs : List Handler) (req : List Char) (h : (prePass ints req).1 = false) :
    runPipeline ints svcs req = .ok (rejectMsg, (prePass ints req).2.2) := by
  simp [runPipeline, h]

theorem strFind_of_isPrefixOf {pat s : List Char} (h : pat.isPrefixOf s = true) :
    strFind pat s = some 0 := by
  cases s <;> simp [strFind, h]

theorem prefix_append_cons {c : Char} :
    ∀ (a : List Char) {pat b : List Char}, c ∉ pat → pat <+: a ++ c :: b → pat <+: a := by
  intro a
  induction a with
  | nil =>
    intro pat b hc hpre
    cases pat with
    | nil => exact List.nil_prefix
    | cons p ps =>
      rw [List.nil_append, List.cons_prefix_cons] at hpre
      exact absurd (show c ∈ p :: ps by rw [← hpre.1]; exact List.mem_cons_self p ps) hc
  | cons a₀ a' ih =>
    intro pat b hc hpre
    cases pat with
    | nil => exact List.nil_prefix
    | cons p ps =>
      rw [List.cons_append, List.cons_prefix_cons] at hpre
      have hcps : c ∉ ps := fun hm => hc (List.mem_cons_of_mem p hm)
      exact List.cons_prefix_cons.mpr ⟨hpre.1, ih hcps hpre.2⟩

theorem strFind_append_cons {pat : List Char} {c : Char} (hc : c ∉ pat)
    (hp : pat ≠ []) (a b : List Char) :
    strFind pat (a ++ c :: b) =
      (match strFind pat a with
       | some i => some i
       | none => (strFind pat b).map (· + (a.length + 1))) := by
  induction a with
  | nil =>
    have hno : pat.isPrefixOf (c :: b) = false := by
      cases pat with
      | nil => exact absurd rfl hp
      | cons p ps =>
        apply Bool.eq_false_iff.mpr
        intro hyes
        have hpre := List.isPrefixOf_iff_prefix.mp hyes
        rw [List.cons_prefix_cons] at hpre
        exact hc (by rw [hpre.1]; exact List.mem_cons_self c ps)
    have hpre0 : pat.isPrefixOf ([] : List Char) = false := by
      cases pat with
      | nil => exact absurd rfl hp
      | cons p ps => rfl
    simp only [List.nil_append, strFind, hno, hpre0, Bool.false_eq_true, if_false,
      List.length_nil]
  | cons a₀ a' ih =>
    show strFind pat (a₀ :: (a' ++ c :: b)) = _
    by_cases hpp : pat.isPrefixOf (a₀ :: (a' ++ c :: b)) = true
    · have hpa : pat.isPrefixOf (a₀ :: a') = true := by
        rw [List.isPrefixOf_iff_prefix]
        exact prefix_append_cons (a₀ :: a') hc
          (by rw [List.cons_append]; exact List.isPrefixOf_iff_prefix.mp hpp)
      rw [strFind_of_isPrefixOf hpa]
      simp [strFind, hpp]
    · have hpp' : pat.isPrefixOf (a₀ :: (a' ++ c :: b)) = false := Bool.eq_false_iff.mpr hpp
      have hpa : pat.isPrefixOf (a₀ :: a') = false := by
        apply Bool.eq_false_iff.mpr
        intro hyes
        apply hpp
        rw [List.isPrefixOf_iff_prefix]
        have h1 := List.isPrefixOf_iff_prefix.mp hyes
        have h2 : (a₀ :: a') <+: (a₀ :: a') ++ c :: b := List.prefix_append _ _
        rw [List.cons_append] at h2
        exact h1.trans h2
      simp only [strFind, hpp', Bool.false_eq_true, if_false, hpa, ih]
      cases hfa : strFind pat a' with
      | some i => simp
      | none =>
        cases hfb : strFind pat b with
        | none => simp
        | some j =>
          show some (j + (a'.length + 1) + 1) = some (j + ((a₀ :: a').length + 1))
          exact congrArg some (by simp [List.length_cons]; omega)

theorem tokenHere_nil : tokenHere ([] : List Char) = none := by decide

theorem tokenCapture_of_tokenHere {s t : List Char} (h : tokenHere s = some t) :
    tokenCapture s = some t := by
  cases s with
  | nil => exact absurd h (by rw [tokenHere_nil]; exact Option.noConfusion)
  | cons c s' => simp [tokenCapture, h]

theorem tokenCapture_some {s t : List Char} (h : tokenCapture s = some t) :
    ∃ i, tokenAt s i = some t := by
  induction s with
  | nil => exact absurd h (by simp [tokenCapture])
  | cons c s' ih =>
    rw [tokenCapture] at h
    cases h0 : tokenHere (c :: s') with
    | some tk =>
      rw [h0] at h
      exact ⟨0, by simpa [tokenAt] using h0.trans h⟩
    | none =>
      rw [h0] at h
      obtain ⟨i, hi⟩ := ih h
      exact ⟨i + 1, by simpa [tokenAt, List.drop_succ_cons] using hi⟩

theorem tokenCapture_of_first {t : List Char} :
    ∀ (i : Nat) (s : List Char), tokenAt s i = some t →
      (∀ j, j < i → tokenAt s j = none) → tokenCapture s = some t := by
  intro i
  induction i with
  | zero =>
    intro s h _
    rw [tokenAt, List.drop_zero] at h
    exact tokenCapture_of_tokenHere h
  | succ i ih =>
    intro s h hall
    cases s with
    | nil => exact absurd h (by simp [tokenAt, tokenHere_nil])
    | cons c s' =>
      have h0 : tokenHere (c :: s') = none := by
        have := hall 0 (Nat.succ_pos i)
        rwa [tokenAt, List.drop_zero] at this
      rw [tokenCapture, h0]
      refine ih s' (by rwa [tokenAt, List.drop_succ_cons] at h) ?_
      intro j hj
      have := hall (j + 1) (Nat.succ_lt_succ hj)
      rwa [tokenAt, List.drop_succ_cons] at this

theorem tokenAt_of_le {s : List Char} {i : Nat} (h : s.length ≤ i) :
    tokenAt s i = none := by
  rw [tokenAt, List.drop_eq_nil_of_le h, tokenHere_nil]

theorem noTokenOcc_of_bounded {s t : List Char}
    (h : ∀ i, i < s.length → tokenAt s i ≠ some t) : ¬ ∃ i, tokenAt s i = some t := by
  rintro ⟨i, hi⟩
  by_cases hlt : i < s.length
  · exact h i hlt hi
  · rw [tokenAt_of_le (Nat.le_of_not_lt hlt)] at hi
    exact Option.noConfusion hi

theorem takeWhile_append_cons {p : Char → Bool} {c : Char} (hc : p c = false) :
    ∀ (l l₂ : List Char), (∀ x ∈ l, p x = true) →
      (l ++ c :: l₂).takeWhile p = l := by
  intro l l₂ hall
  induction l with
  | nil => simp [List.takeWhile_cons, hc]
  | cons x l ih =>
    have hx : p x = true := hall x (by simp)
    simp [List.takeWhile_cons, hx, ih (fun y hy => hall y (by simp [hy]))]

theorem dispatchCount_singleton_of_ok {hd : Handler} {req resp : List Char}
    (h : hd req = .ok resp) (hne : resp ≠ []) :
    dispatchCount [hd] req = .ok (resp, 1) := by
  simp [dispatchCount, h, hne]

theorem runPipeline_auth_echo {secret r resp : List Char}
    (hauth : AuthenticationInterceptor.preProcess secret r = true)
    (hecho : EchoService.processRequest r = .ok resp) (hresp : resp ≠ []) :
    runPipeline [authInterceptor secret] [EchoService.processRequest] r
      = .ok (resp, [authInterceptor secret]) := by
  have hpp : prePass [authInterceptor secret] r = (true, r, [authInterceptor secret]) := by
    simp [prePass, authInterceptor, hauth]
  have hdisp := dispatchCount_singleton_of_ok hecho hresp
  have hpost : postPass [authInterceptor secret] r resp = (resp, [authInterceptor secret]) := by
    simp [postPass, authInterceptor]
  simp [runPipeline, hpp, hdisp, hresp, hpost]

theorem processTwo_of_fixedpoint {σ : Type} {ints : List (Interceptor σ)}
    {svcs : List Handler} {r resp : List Char}
    (h : runPipeline ints svcs r = .ok (resp, ints)) :
    processTwo ints svcs r = .ok (resp, resp, ints) := by
  simp [processTwo, h]

theorem mem_orderedInsertI {σ : Type} (i : Interceptor σ) :
    ∀ (l : List (Interceptor σ)) (y), y ∈ orderedInsertI i l → y = i ∨ y ∈ l := by
  intro l
  induction l with
  | nil =>
    intro y hy
    rw [orderedInsertI] at hy
    exact Or.inl (List.mem_singleton.mp hy)
  | cons j rest ih =>
    intro y hy
    rw [orderedInsertI] at hy
    by_cases hle : i.priority ≤ j.priority
    · rw [if_pos hle] at hy
      rcases List.mem_cons.mp hy with h | h
      · exact Or.inl h
      · exact Or.inr h
    · rw [if_neg hle] at hy
      rcases List.mem_cons.mp hy with h | h
      · exact Or.inr (h ▸ List.mem_cons_self j rest)
      · rcases ih y h with h' | h'
        · exact Or.inl h'
        · exact Or.inr (List.mem_cons_of_mem j h')

theorem pairwise_orderedInsertI {σ : Type} (i : Interceptor σ) :
    ∀ {l : List (Interceptor σ)}, SortedByPriority l →
      SortedByPriority (orderedInsertI i l) := by
  intro l
  induction l with
  | nil =>
    intro _
    rw [orderedInsertI]
    exact List.pairwise_singleton _ _
  | cons j rest ih =>
    intro hs
    have hs' := List.pairwise_cons.mp hs
    rw [orderedInsertI]
    by_cases hle : i.priority ≤ j.priority
    · rw [if_pos hle]
      refine List.Pairwise.cons ?_ (List.pairwise_cons.mpr hs')
      intro y hy
      rcases List.mem_cons.mp hy with h | h
      · exact h ▸ hle
      · exact le_trans hle (hs'.1 y h)
    · rw [if_neg hle]
      refine List.Pairwise.cons ?_ (ih hs'.2)
      intro y hy
      rcases mem_orderedInsertI i rest y hy with h | h
      · exact h ▸ (by omega : j.priority ≤ i.priority)
      · exact hs'.1 y h

theorem sorted_sortByPriority {σ : Type} :
    ∀ (l : List (Interceptor σ)), SortedByPriority (sortByPriority l) := by
  intro l
  induction l with
  | nil => exact List.Pairwise.nil
  | cons i rest ih => exact pairwise_orderedInsertI i ih

theorem filter_orderedInsertI_eq {σ : Type} {p : Int} {i : Interceptor σ}
    (hi : i.priority = p) : ∀ (l : List (Interceptor σ)),
    (orderedInsertI i l).filter (fun y => y.priority == p)
      = i :: l.filter (fun y => y.priority == p) := by
  intro l
  induction l with
  | nil => simp [orderedInsertI, List.filter_cons, hi]
  | cons j rest ih =>
    rw [orderedInsertI]
    by_cases hle : i.priority ≤ j.priority
    · rw [if_pos hle]
      simp [List.filter_cons, hi]
    · rw [if_neg hle]
      have hj : (j.priority == p) = false := by
        apply beq_eq_false_iff_ne.mpr
        omega
      simp [List.filter_cons, hj, ih]

theorem filter_orderedInsertI_ne {σ : Type} {p : Int} {i : Interceptor σ}
    (hi : ¬ i.priority = p) : ∀ (l : List (Interceptor σ)),
    (orderedInsertI i l).filter (fun y => y.priority == p)
      = l.filter (fun y => y.priority == p) := by
  intro l
  have hib : (i.priority == p) = false := beq_eq_false_iff_ne.mpr hi
  induction l with
  | nil => simp [orderedInsertI, List.filter_cons, hib]
  | cons j rest ih =>
    rw [orderedInsertI]
    by_cases hle : i.priority ≤ j.priority
    · rw [if_pos hle]
      simp [List.filter_cons, hib]
    · rw [if_neg hle]
      simp [List.filter_cons, ih]

theorem filter_sortByPriority {σ : Type} (p : Int) :
    ∀ (l : List (Interceptor σ)),
    (sortByPriority l).filter (fun y => y.priority == p)
      = l.filter (fun y => y.priority == p) := by
  intro l
  induction l with
  | nil => rfl
  | cons i rest ih =>
    show (orderedInsertI i (sortByPriority rest)).filter _ = _
    by_cases hi : i.priority = p
    · rw [filter_orderedInsertI_eq hi, ih, List.filter_cons]
      simp [hi]
    · rw [filter_orderedInsertI_ne hi, ih, List.filter_cons]
      simp [beq_eq_false_iff_ne.mpr hi]

theorem runRate_window : ∀ (ts : List Nat) (st : RateState),
    (∀ t ∈ ts, st.lastReset ≤ t ∧ t - st.lastReset < 60) →
    st.current + ts.length ≤ st.max →
    runRate st ts = (List.replicate ts.length true,
      ⟨st.max, st.current + ts.length, st.lastReset⟩) := by
  intro ts
  induction ts with
  | nil =>
    intro st _ _
    cases st
    simp [runRate]
  | cons t ts ih =>
    intro st hall hle
    have ht := hall t (by simp)
    have hnoreset : ¬ (60 ≤ t - st.lastReset) := by omega
    have hcur : ¬ (st.max ≤ st.current) := by
      simp only [List.length_cons] at hle
      omega
    have hpre : RateLimitingInterceptor.preProcess st t []
        = (true, [], ⟨st.max, st.current + 1, st.lastReset⟩) := by
      simp [RateLimitingInterceptor.preProcess, hnoreset, hcur]
    have ih' := ih ⟨st.max, st.current + 1, st.lastReset⟩
      (fun u hu => hall u (List.mem_cons_of_mem t hu))
      (by simp only [List.length_cons] at hle; simp; omega)
    simp only [runRate, hpre, ih', List.replicate_succ, List.length_cons]
    congr 2
    omega

/-! Claim theorems. -/

/-- C1, counterexample: the claim predicts a symmetric unwind — on rejection
the post-pass of the middleware whose pre-pass had already run is executed —
but `processRequest` simply returns the fixed rejection response without
running any `postProcess`.  With two flag interceptors (the first accepts,
the second rejects; each `postProcess` sets its flag), the code leaves both
flags false while the claimed pipeline sets them. -/
theorem c1_counterexample :
    obsv (HFTServer.processRequest [flagInterceptor true 0, flagInterceptor false 1]
        [fun _ => .ok ['X']] ("q".toList))
      = some (rejectMsg, [false, false])
    ∧ obsv (runPipelineSpecUnwind [flagInterceptor true 0, flagInterceptor false 1]
        [fun _ => .ok ['X']] ("q".toList))
      = some (rejectMsg, [true, true])
    ∧ obsv (HFTServer.processRequest [flagInterceptor true 0, flagInterceptor false 1]
        [fun _ => .ok ['X']] ("q".toList))
      ≠ obsv (runPipelineSpecUnwind [flagInterceptor true 0, flagInterceptor false 1]
        [fun _ => .ok ['X']] ("q".toList)) := by
  refine ⟨by decide, by decide, by decide⟩

/-- C1, amended: when some interceptor's pre-pass rejects, both servers'
`processRequest` return the fixed rejection response immediately: no service
is consulted (the result is independent of the service list) and no
`postProcess` runs at all — the interceptor states are exactly the states
left by the aborted pre-pass. -/
theorem c1_reject_short_circuit :
    (∀ (σ : Type) (ints : List (Interceptor σ)) (svcs svcs' : List Handler)
        (req : List Char), (prePass ints req).1 = false →
        HFTServer.processRequest ints svcs req = .ok (rejectMsg, (prePass ints req).2.2)
        ∧ HFTServer.processRequest ints svcs req = HFTServer.processRequest ints svcs' req)
    ∧ (∀ (σ : Type) (ints : List (Interceptor σ)) (svcs svcs' : List Handler)
        (req : List Char), (prePass (sortByPriority ints) req).1 = false →
        SocketServer.processRequest ints svcs req
          = .ok (rejectMsg, (prePass (sortByPriority ints) req).2.2)
        ∧ SocketServer.processRequest ints svcs req
          = SocketServer.processRequest ints svcs' req) := by
  constructor
  · intro σ ints svcs svcs' req h
    exact ⟨runPipeline_of_reject ints svcs req h,
      (runPipeline_of_reject ints svcs req h).trans
        (runPipeline_of_reject ints svcs' req h).symm⟩
  · intro σ ints svcs svcs' req h
    exact ⟨runPipeline_of_reject (sortByPriority ints) svcs req h,
      (runPipeline_of_reject (sortByPriority ints) svcs req h).trans
        (runPipeline_of_reject (sortByPriority ints) svcs' req h).symm⟩

/-- C1, witness for the amended theorem: an authentication interceptor with
token `s` rejects the request `q`, and the pipeline returns the fixed
rejection response with the pre-pass states. -/
theorem c1_reject_short_circuit_witness :
    (prePass [authInterceptor ("s".toList)] ("q".toList)).1 = false
    ∧ HFTServer.processRequest [authInterceptor ("s".toList)] [EchoService.processRequest]
        ("q".toList)
      = .ok (rejectMsg, (prePass [authInterceptor ("s".toList)] ("q".toList)).2.2) := by
  refine ⟨by decide, ?_⟩
  exact (c1_reject_short_circuit.1 Unit [authInterceptor ("s".toList)]
    [EchoService.processRequest] [] ("q".toList) (by decide)).1

/-- C2: services are probed in registration order; the first service that
returns a non-empty string determines the response and no later service is
consulted (the consultation count is the position of that service, and the
result does not depend on the services after it); when every service returns
the empty string, the pipeline's response is exactly
`ERROR: No service available to handle request`. -/
theorem c2_dispatch_first_nonempty :
    (∀ (pre rest : List Handler) (hd : Handler) (req r : List Char),
        (∀ s ∈ pre, s req = .ok []) → hd req = .ok r → r ≠ [] →
        dispatchCount (pre ++ hd :: rest) req = .ok (r, pre.length + 1))
    ∧ (∀ (svcs : List Handler) (req : List Char),
        (∀ s ∈ svcs, s req = .ok []) →
        dispatchCount svcs req = .ok ([], svcs.length)
        ∧ runPipeline ([] : List (Interceptor Unit)) svcs req = .ok (noServiceMsg, [])) := by
  constructor
  · intro pre rest hd req r hpre hhd hr
    induction pre with
    | nil => simp [dispatchCount, hhd, hr]
    | cons s pre ih =>
      have hs : s req = .ok [] := hpre s (by simp)
      have ih' := ih (fun s hs' => hpre s (by simp [hs']))
      simp [dispatchCount, hs, ih']
  · intro svcs req hall
    have hd : dispatchCount svcs req = .ok ([], svcs.length) := by
      induction svcs with
      | nil => rfl
      | cons s svcs ih =>
        have hs : s req = .ok [] := hall s (by simp)
        have ih' := ih (fun s hs' => hall s (by simp [hs']))
        simp [dispatchCount, hs, ih']
    refine ⟨hd, ?_⟩
    simp [runPipeline, prePass, hd, postPass]

/-- C2, witness: with an empty-returning service first, the second service
answers and the third is never consulted; with only empty-returning services
the fixed no-service error is produced. -/
theorem c2_dispatch_first_nonempty_witness :
    dispatchCount [fun _ => .ok [], fun _ => .ok ['R'], fun _ => .ok ['L']] ("r".toList)
      = .ok (['R'], 2)
    ∧ runPipeline ([] : List (Interceptor Unit)) [fun _ => .ok [], fun _ => .ok []]
        ("r".toList) = .ok (noServiceMsg, []) := by
  constructor
  · have := c2_dispatch_first_nonempty.1 [fun _ => .ok []] [fun _ => .ok ['L']]
      (fun _ => .ok ['R']) ("r".toList) ['R']
      (List.forall_mem_singleton.mpr rfl) rfl (by decide)
    simpa using this
  · exact (c2_dispatch_first_nonempty.2 [fun _ => .ok [], fun _ => .ok []] ("r".toList)
      (List.forall_mem_cons.mpr ⟨rfl, List.forall_mem_singleton.mpr rfl⟩)).2

/-- C3: on the request `TOKEN:secret123 ECHO`, whose text ends exactly at the
command keyword, `EchoService::processRequest` computes
`request.substr(echoPos + 5)` with `echoPos + 5` one past the end, so
`std::out_of_range` is thrown; no try/catch exists in the handler, in
`processRequest`, or in the worker loop, so the exception escapes the
pipeline (and terminates the worker thread) instead of producing an
`ERROR:` response. -/
theorem c3_handler_exception_escapes :
    EchoService.processRequest ("TOKEN:secret123 ECHO".toList) = .error ()
    ∧ HFTServer.processRequest ([] : List (Interceptor Unit)) [EchoService.processRequest]
        ("TOKEN:secret123 ECHO".toList) = .error () :=
  ⟨rfl, rfl⟩

/-- C4: `LockFreeQueue::enqueue` never returns false — `get_node` returns
`pool[pool_index++ % pool.size()]`, which is never a null pointer — and on a
capacity-2 queue already holding two undequeued items a third enqueue
returns true and overwrites pool slot 0, which still holds the first
undequeued item. -/
theorem c4_enqueue_never_rejects :
    (∀ (q : LockFreeQueue Nat) (x : Nat), (q.enqueue x).1 = true)
    ∧ (queueAfterTwo.enqueue 3).1 = true
    ∧ (queueAfterTwo.pool.getD 0 default).data = 1
    ∧ (((queueAfterTwo.enqueue 3).2).pool.getD 0 default).data = 3 :=
  ⟨fun _ _ => rfl, rfl, rfl, rfl⟩

/-- C7: after a single successful enqueue onto a fresh queue, two successive
dequeues (even from one thread, with no concurrency involved) both return
that same item — the first enqueue links the node to itself through the
initial head — so a work item is delivered more than once. -/
theorem c7_duplicate_delivery :
    (queueAfterOne.dequeue).1 = some 7
    ∧ ((queueAfterOne.dequeue).2.dequeue).1 = some 7 := by
  refine ⟨by decide, by decide⟩

/-- C5: when no offset of the request carries a `TOKEN:`-prefixed
whitespace-delimited token equal to the configured secret,
`AuthenticationInterceptor::preProcess` returns false and a pipeline headed
by the authentication interceptor returns the fixed rejection response with
no service consulted (the result does not depend on the service list); and
whenever the first matching `TOKEN:<t>` occurrence captures exactly the
secret, `preProcess` returns true. -/
theorem c5_auth_token_gate :
    (∀ (secret req : List Char) (rest : List (Interceptor Unit)) (svcs svcs' : List Handler),
        (¬ ∃ i, tokenAt req i = some secret) →
        AuthenticationInterceptor.preProcess secret req = false
        ∧ runPipeline (authInterceptor secret :: rest) svcs req
            = .ok (rejectMsg, authInterceptor secret :: rest)
        ∧ runPipeline (authInterceptor secret :: rest) svcs req
            = runPipeline (authInterceptor secret :: rest) svcs' req)
    ∧ (∀ (secret req : List Char) (i : Nat),
        tokenAt req i = some secret → (∀ j, j < i → tokenAt req j = none) →
        AuthenticationInterceptor.preProcess secret req = true) := by
  constructor
  · intro secret req rest svcs svcs' hno
    have hfalse : AuthenticationInterceptor.preProcess secret req = false := by
      rw [AuthenticationInterceptor.preProcess]
      cases hc : tokenCapture req with
      | none => rfl
      | some tk =>
        apply beq_eq_false_iff_ne.mpr
        intro he
        exact hno (tokenCapture_some (he ▸ hc))
    have hpre : prePass (authInterceptor secret :: rest) req
        = (false, req, authInterceptor secret :: rest) := by
      simp [prePass, authInterceptor, hfalse]
    refine ⟨hfalse, ?_, ?_⟩
    · have := runPipeline_of_reject (authInterceptor secret :: rest) svcs req
        (by rw [hpre])
      rwa [hpre] at this
    · have h1 := runPipeline_of_reject (authInterceptor secret :: rest) svcs req
        (by rw [hpre])
      have h2 := runPipeline_of_reject (authInterceptor secret :: rest) svcs' req
        (by rw [hpre])
      exact h1.trans h2.symm
  · intro secret req i hi hfirst
    rw [AuthenticationInterceptor.preProcess, tokenCapture_of_first i req hi hfirst]
    exact beq_self_eq_true secret

/-- C5, witness: with secret `secret123`, the request `TOKEN:wrong ECHO Hi`
is rejected before dispatch and `TOKEN:secret123 ECHO Hi` passes the
authentication check. -/
theorem c5_auth_token_gate_witness :
    AuthenticationInterceptor.preProcess ("secret123".toList) ("TOKEN:wrong ECHO Hi".toList)
      = false
    ∧ runPipeline [authInterceptor ("secret123".toList)] [EchoService.processRequest]
        ("TOKEN:wrong ECHO Hi".toList)
      = .ok (rejectMsg, [authInterceptor ("secret123".toList)])
    ∧ AuthenticationInterceptor.preProcess ("secret123".toList)
        ("TOKEN:secret123 ECHO Hi".toList) = true := by
  have hno : ¬ ∃ i, tokenAt ("TOKEN:wrong ECHO Hi".toList) i = some ("secret123".toList) :=
    noTokenOcc_of_bounded (by decide)
  refine ⟨(c5_auth_token_gate.1 _ _ [] [EchoService.processRequest] [] hno).1,
    (c5_auth_token_gate.1 _ _ [] [EchoService.processRequest] [] hno).2.1,
    c5_auth_token_gate.2 _ _ 0 (by decide) (fun j hj => absurd hj (by omega))⟩

/-- C9: for every free text `x`, the request `TOKEN:<secret> ECHO x` with the
configured secret (a non-empty whitespace-free token whose `TOKEN:`-prefix
does not itself contain `ECHO`) passes authentication and produces exactly
the response `ECHO: x`; running the identical request a second time through
the same pipeline state yields the identical response and leaves the
interceptor unchanged (no hidden state mutation). -/
theorem c9_echo_verbatim :
    ∀ (secret x : List Char), secret ≠ [] →
      (∀ c ∈ secret, isSpaceChar c = false) →
      strFind ("ECHO".toList) ("TOKEN:".toList ++ secret) = none →
      runPipeline [authInterceptor secret] [EchoService.processRequest]
          ("TOKEN:".toList ++ secret ++ (' ' :: ("ECHO".toList ++ (' ' :: x))))
        = .ok ("ECHO: ".toList ++ x, [authInterceptor secret])
      ∧ processTwo [authInterceptor secret] [EchoService.processRequest]
          ("TOKEN:".toList ++ secret ++ (' ' :: ("ECHO".toList ++ (' ' :: x))))
        = .ok ("ECHO: ".toList ++ x, "ECHO: ".toList ++ x, [authInterceptor secret]) := by
  intro secret x hne hns hfind
  have hdrop : ("TOKEN:".toList ++ (secret ++ ' ' :: ("ECHO".toList ++ ' ' :: x))).drop 6
      = secret ++ ' ' :: ("ECHO".toList ++ ' ' :: x) :=
    List.drop_left ("TOKEN:".toList) _
  have htw : (secret ++ ' ' :: ("ECHO".toList ++ ' ' :: x)).takeWhile
      (fun c => !isSpaceChar c) = secret :=
    takeWhile_append_cons (by decide) secret _ (fun c hcm => by rw [hns c hcm]; rfl)
  have hpre6 : ("TOKEN:".toList).isPrefixOf
      ("TOKEN:".toList ++ (secret ++ ' ' :: ("ECHO".toList ++ ' ' :: x))) = true :=
    List.isPrefixOf_iff_prefix.mpr (List.prefix_append _ _)
  have hth : tokenHere ("TOKEN:".toList ++ (secret ++ ' ' :: ("ECHO".toList ++ ' ' :: x)))
      = some secret := by
    simp only [tokenHere, hpre6, if_true, hdrop, htw]
    rw [if_neg hne]
  have hauth : AuthenticationInterceptor.preProcess secret
      ("TOKEN:".toList ++ secret ++ (' ' :: ("ECHO".toList ++ (' ' :: x)))) = true := by
    rw [AuthenticationInterceptor.preProcess, List.append_assoc,
      tokenCapture_of_tokenHere hth]
    exact beq_self_eq_true secret
  have h4 : ("ECHO".toList).length = 4 := rfl
  have h6 : ("TOKEN:".toList).length = 6 := rfl
  have hfindreq : strFind ("ECHO".toList)
      ("TOKEN:".toList ++ secret ++ (' ' :: ("ECHO".toList ++ (' ' :: x))))
      = some (("TOKEN:".toList ++ secret).length + 1) := by
    rw [strFind_append_cons (show (' ' ∉ "ECHO".toList) by decide)
      (show "ECHO".toList ≠ [] by decide) ("TOKEN:".toList ++ secret)
      ("ECHO".toList ++ (' ' :: x))]
    rw [hfind]
    rw [strFind_of_isPrefixOf
      (List.isPrefixOf_iff_prefix.mpr (List.prefix_append ("ECHO".toList) (' ' :: x)))]
    simp
  have hlen : ("TOKEN:".toList ++ secret).length + 1 + 5
      ≤ ("TOKEN:".toList ++ secret ++ (' ' :: ("ECHO".toList ++ (' ' :: x)))).length := by
    simp only [List.length_append, List.length_cons, h4, h6]
    omega
  have hC : "TOKEN:".toList ++ secret ++ (' ' :: ("ECHO".toList ++ (' ' :: x)))
      = (("TOKEN:".toList ++ secret) ++ (' ' :: ("ECHO".toList ++ [' ']))) ++ x := by
    simp [List.append_assoc]
  have hClen : ((("TOKEN:".toList ++ secret) ++ (' ' :: ("ECHO".toList ++ [' '])))).length
      = ("TOKEN:".toList ++ secret).length + 1 + 5 := by
    simp only [List.length_append, List.length_cons, List.length_nil, h4, h6]
  have hdropx : ("TOKEN:".toList ++ secret ++ (' ' :: ("ECHO".toList ++ (' ' :: x)))).drop
      (("TOKEN:".toList ++ secret).length + 1 + 5) = x := by
    rw [hC, ← hClen]
    exact List.drop_left _ _
  have hecho : EchoService.processRequest
      ("TOKEN:".toList ++ secret ++ (' ' :: ("ECHO".toList ++ (' ' :: x))))
      = .ok ("ECHO: ".toList ++ x) := by
    rw [EchoService.processRequest, hfindreq]
    show (substrFrom _ (("TOKEN:".toList ++ secret).length + 1 + 5)).map _ = _
    rw [substrFrom, if_pos hlen, hdropx]
    rfl
  have hne2 : "ECHO: ".toList ++ x ≠ [] := by
    show 'E' :: ("CHO: ".toList ++ x) ≠ []
    exact List.cons_ne_nil _ _
  have hrun := runPipeline_auth_echo hauth hecho hne2
  exact ⟨hrun, processTwo_of_fixedpoint hrun⟩

/-- C9, witness: the concrete scenario `TOKEN:secret123 ECHO Hello World`
with secret `secret123` yields `ECHO: Hello World`, twice in a row. -/
theorem c9_echo_verbatim_witness :
    runPipeline [authInterceptor ("secret123".toList)] [EchoService.processRequest]
        ("TOKEN:".toList ++ "secret123".toList
          ++ (' ' :: ("ECHO".toList ++ (' ' :: "Hello World".toList))))
      = .ok ("ECHO: ".toList ++ "Hello World".toList, [authInterceptor ("secret123".toList)])
    ∧ "TOKEN:".toList ++ "secret123".toList
        ++ (' ' :: ("ECHO".toList ++ (' ' :: "Hello World".toList)))
      = "TOKEN:secret123 ECHO Hello World".toList
    ∧ "ECHO: ".toList ++ "Hello World".toList = "ECHO: Hello World".toList :=
  ⟨(c9_echo_verbatim ("secret123".toList) ("Hello World".toList)
      (by decide) (by decide) (by decide)).1, by decide, by decide⟩

/-- C6, counterexample: `SocketServer::addInterceptor` only appends, so after
registering priorities 2 then 1 the stored middleware sequence is not in
ascending priority order — the claimed invariant does not hold after every
`addInterceptor` call for this server (it is only re-established inside
`processRequest`). -/
theorem c6_counterexample :
    ¬ SortedByPriority (SocketServer.addInterceptor
        (SocketServer.addInterceptor ([] : List (Interceptor Unit)) (plainInterceptor 2))
        (plainInterceptor 1)) := by
  intro h
  have hl : SocketServer.addInterceptor
      (SocketServer.addInterceptor ([] : List (Interceptor Unit)) (plainInterceptor 2))
      (plainInterceptor 1) = [plainInterceptor 2, plainInterceptor 1] := rfl
  rw [hl] at h
  have h2 := (List.pairwise_cons.mp h).1 (plainInterceptor 1) (List.mem_cons_self _ _)
  exact absurd h2 (by decide)

/-- C6, amended: `HFTServer::addInterceptor` leaves the stored sequence
sorted in ascending priority order after every call; `SocketServer`'s
`addInterceptor` only appends, and the sequence is instead sorted at the top
of every `processRequest`, before any middleware runs; under the modelled
(stable) sort, middleware of equal priority keep their insertion order. -/
theorem c6_priority_order :
    (∀ (σ : Type) (ints : List (Interceptor σ)) (i : Interceptor σ),
        SortedByPriority (HFTServer.addInterceptor ints i))
    ∧ (∀ (σ : Type) (ints : List (Interceptor σ)) (i : Interceptor σ),
        SocketServer.addInterceptor ints i = ints ++ [i])
    ∧ (∀ (σ : Type) (ints : List (Interceptor σ)) (svcs : List Handler) (req : List Char),
        SocketServer.processRequest ints svcs req = runPipeline (sortByPriority ints) svcs req
        ∧ SortedByPriority (sortByPriority ints))
    ∧ (∀ (σ : Type) (p : Int) (l : List (Interceptor σ)),
        (sortByPriority l).filter (fun y => y.priority == p)
          = l.filter (fun y => y.priority == p)) :=
  ⟨fun _ ints i => sorted_sortByPriority (ints ++ [i]),
   fun _ _ _ => rfl,
   fun _ ints _ _ => ⟨rfl, sorted_sortByPriority ints⟩,
   fun _ p l => filter_sortByPriority p l⟩

/-- C8: for a rate limiter configured with limit K ≥ 1 and fresh within a
window (counter 0, last reset at `t0`), the first K `preProcess` calls at
clock readings inside the window all return true and the (K+1)-th returns
false; and from any state, once at least 60 seconds have elapsed since the
last reset, the call resets the counter (the new state records this single
request) and returns true. -/
theorem c8_rate_limit_window :
    (∀ (K t0 : Nat) (ts : List Nat) (u : Nat), 0 < K → ts.length = K →
        (∀ t ∈ ts, t0 ≤ t ∧ t - t0 < 60) → t0 ≤ u → u - t0 < 60 →
        (runRate ⟨K, 0, t0⟩ ts).1 = List.replicate K true
        ∧ (RateLimitingInterceptor.preProcess (runRate ⟨K, 0, t0⟩ ts).2 u []).1 = false)
    ∧ (∀ (st : RateState) (now : Nat) (req : List Char), 0 < st.max →
        60 ≤ now - st.lastReset →
        RateLimitingInterceptor.preProcess st now req = (true, req, ⟨st.max, 1, now⟩)) := by
  constructor
  · intro K t0 ts u hK hlen hall hu1 hu2
    have hrw := runRate_window ts ⟨K, 0, t0⟩ (by simpa using hall) (by simp [hlen])
    refine ⟨by rw [hrw]; simp [hlen], ?_⟩
    rw [hrw]
    have hnr : ¬ (60 ≤ u - t0) := by omega
    simp [RateLimitingInterceptor.preProcess, hnr, hlen]
  · intro st now req hmax hreset
    simp [RateLimitingInterceptor.preProcess, hreset, Nat.not_le.mpr hmax]

/-- C8, witness: limit 2, reset at time 0: calls at times 1 and 2 are
allowed, the third call at time 3 (inside the window) is rejected; a call at
time 60 from a saturated state resets the counter and is allowed. -/
theorem c8_rate_limit_window_witness :
    (runRate ⟨2, 0, 0⟩ [1, 2]).1 = List.replicate 2 true
    ∧ (RateLimitingInterceptor.preProcess (runRate ⟨2, 0, 0⟩ [1, 2]).2 3 []).1 = false
    ∧ RateLimitingInterceptor.preProcess ⟨2, 5, 0⟩ 60 [] = (true, [], ⟨2, 1, 60⟩) :=
  ⟨(c8_rate_limit_window.1 2 0 [1, 2] 3 (by decide) rfl (by decide) (by decide)
      (by decide)).1,
   (c8_rate_limit_window.1 2 0 [1, 2] 3 (by decide) rfl (by decide) (by decide)
      (by decide)).2,
   c8_rate_limit_window.2 ⟨2, 5, 0⟩ 60 [] (by decide) (by decide)⟩

/-- C10: none of the four built-in interceptors rewrites the request: each
`preProcess` returns its request argument unchanged; consequently, when
every interceptor of a pipeline preserves the request, the pre-pass hands
the handlers exactly the raw request. -/
theorem c10_no_request_rewrite :
    (∀ (st now : Nat) (req : List Char),
        (LoggingInterceptor.preProcess st now req).2.1 = req)
    ∧ (∀ (secret : List Char) (st : Unit) (req : List Char),
        ((authInterceptor secret).pre st req).2.1 = req)
    ∧ (∀ (st : RateState) (now : Nat) (req : List Char),
        (RateLimitingInterceptor.preProcess st now req).2.1 = req)
    ∧ (∀ (st : Unit) (req : List Char),
        ((validationInterceptor).pre st req).2.1 = req)
    ∧ (∀ (σ : Type) (ints : List (Interceptor σ)) (req : List Char),
        (∀ i ∈ ints, ∀ (st : σ) (r : List Char), (i.pre st r).2.1 = r) →
        (prePass ints req).2.1 = req) := by
  refine ⟨fun _ _ _ => rfl, fun _ _ _ => rfl, ?_, fun _ _ => rfl, ?_⟩
  · intro st now req
    simp only [RateLimitingInterceptor.preProcess]
    split <;> split <;> rfl
  · intro σ ints
    induction ints with
    | nil => intro req _; rfl
    | cons i rest ih =>
      intro req hall
      have hi := hall i (List.mem_cons_self _ _)
      have hall' : ∀ j ∈ rest, ∀ (st : σ) (r : List Char), (j.pre st r).2.1 = r :=
        fun j hj => hall j (List.mem_cons_of_mem i hj)
      rcases hp : i.pre i.st req with ⟨b, r1, s1⟩
      have hr1 : r1 = req := by
        have := hi i.st req
        rw [hp] at this
        exact this
      cases b
      · simp [prePass, hp, hr1]
      · simp only [prePass, hp]
        rw [ih r1 hall', hr1]

/-- C10, witness: the validation interceptor passes the request through the
pre-pass unchanged. -/
theorem c10_no_request_rewrite_witness :
    (prePass [validationInterceptor] ("TOKEN:x ECHO hi".toList)).2.1
      = "TOKEN:x ECHO hi".toList :=
  c10_no_request_rewrite.2.2.2.2 Unit [validationInterceptor] ("TOKEN:x ECHO hi".toList)
    (by
      intro i hi st r
      have hiv : i = validationInterceptor := List.mem_singleton.mp hi
      subst hiv
      rfl)

end SockSrv
